import Mathlib

set_option maxRecDepth 8000

/-!
Shallow embedding of the tool-calling core of the repository: the
JavaScript string primitives it relies on, the date normalizer
(`parseHumanDate`), the tool registry, the tool executor
(`executeTool` / `executeTools`) and the `parse_date` tool handler,
together with theorems about the specified properties.
-/

namespace LlmTool

/-! ### JavaScript character and string primitives -/

/-- The JavaScript whitespace characters relevant here (tab, LF, VT, FF,
CR, space, NBSP), as matched by `String.prototype.trim` and the regex
class `\s`. -/
def isJsWhitespace (c : Char) : Bool :=
  c.toNat == 9 || c.toNat == 10 || c.toNat == 11 || c.toNat == 12 ||
    c.toNat == 13 || c.toNat == 32 || c.toNat == 160

/-- The regex class `\d`: ASCII decimal digits. -/
def isDigitCh (c : Char) : Bool :=
  decide (48 ≤ c.toNat ∧ c.toNat ≤ 57)

/-- The regex class `\w`: ASCII letters, digits and underscore. -/
def isWordChar (c : Char) : Bool :=
  isDigitCh c || decide (97 ≤ c.toNat ∧ c.toNat ≤ 122) ||
    decide (65 ≤ c.toNat ∧ c.toNat ≤ 90) || c.toNat == 95

/-- `String.prototype.toLowerCase` on one character (ASCII range). -/
def jsToLowerChar (c : Char) : Char :=
  if 65 ≤ c.toNat ∧ c.toNat ≤ 90 then Char.ofNat (c.toNat + 32) else c

/-- `String.prototype.trim`. -/
def jsTrim (s : String) : String :=
  String.mk (((s.data.dropWhile isJsWhitespace).reverse.dropWhile isJsWhitespace).reverse)

/-- `String.prototype.toLowerCase`. -/
def jsToLower (s : String) : String :=
  String.mk (s.data.map jsToLowerChar)

/-- Numeric value of an ASCII digit character. -/
def charToDigit (c : Char) : Nat := c.toNat - 48

/-- The number denoted by a list of decimal digit characters. -/
def digitsToNat (cs : List Char) : Nat :=
  cs.foldl (fun acc c => acc * 10 + charToDigit c) 0

/-- `parseInt(s, 10)` on a `\w+` token: the longest leading run of
decimal digits read as a number, `none` when there is no leading digit
(`NaN`). -/
def jsParseIntDec (s : String) : Option Nat :=
  let ds := s.data.takeWhile isDigitCh
  if ds = [] then none else some (digitsToNat ds)

/-- JS `String.prototype.startsWith`. -/
def jsStartsWith (s pre : String) : Bool :=
  s.data.take pre.data.length == pre.data

/-- JS `String.prototype.includes`: `needle` occurs contiguously in
`hay`. -/
def strContains (hay needle : String) : Bool :=
  (List.range (hay.data.length + 1)).any
    (fun i => ((hay.data.drop i).take needle.data.length) == needle.data)

/-! ### Calendar dates

Dates are modelled by their day number (days since the epoch 1970-01-01,
the representation underlying the JS `Date`), with the standard
civil-calendar conversions for constructing and printing them. -/

/-- A calendar date as a day number (1970-01-01 is day 0). -/
abbrev Date := Int

/-- `date-fns` `add(z, { days: n })`. -/
def addDays (z : Date) (n : Int) : Date := z + n

/-- Day of week of a day number, JS `getDay` convention: 0 = Sunday, ...,
6 = Saturday (day 0, 1970-01-01, was a Thursday). -/
def weekday (z : Date) : Int := (z + 4) % 7

/-- `date-fns` `nextMonday` .. `nextSunday`: the next day with the given
weekday code strictly after `z`. -/
def nextWeekdayDate (target : Int) (z : Date) : Date :=
  z + (target - weekday z + 6) % 7 + 1

/-- Proleptic Gregorian leap-year rule (as used by the JS `Date`). -/
def isLeapYear (y : Int) : Bool :=
  (y % 4 == 0 && y % 100 != 0) || y % 400 == 0

/-- Length of a month in the proleptic Gregorian calendar (`0` for an
out-of-range month number). -/
def daysInMonth (y : Int) (m : Nat) : Nat :=
  if m = 1 then 31 else if m = 2 then (if isLeapYear y then 29 else 28)
  else if m = 3 then 31 else if m = 4 then 30 else if m = 5 then 31
  else if m = 6 then 30 else if m = 7 then 31 else if m = 8 then 31
  else if m = 9 then 30 else if m = 10 then 31 else if m = 11 then 30
  else if m = 12 then 31 else 0

/-- Day number of a civil date (standard days-from-civil conversion;
Lean's `Int` division is Euclidean, i.e. floor division for the
positive divisors used here, so the 400-year era is `y2 / 400`
directly). -/
def daysFromCivil (y : Int) (m d : Nat) : Int :=
  let y2 : Int := if m ≤ 2 then y - 1 else y
  let era : Int := y2 / 400
  let yoe : Int := y2 - era * 400
  let mp : Int := if 2 < m then (m : Int) - 3 else (m : Int) + 9
  let doy : Int := (153 * mp + 2) / 5 + (d : Int) - 1
  let doe : Int := yoe * 365 + yoe / 4 - yoe / 100 + doy
  era * 146097 + doe - 719468

/-- The day number of the civil date `y-m-d`. -/
def mkDate (y : Int) (m d : Nat) : Date := daysFromCivil y m d

/-- Era-local leap rule: whether year-of-era `n` (1..400) is a leap
year; year 400 of an era is the century divisible by 400. -/
def leapEra (n : Nat) : Bool :=
  (n % 4 == 0 && n % 100 != 0) || n % 400 == 0

/-- First day-of-era of year-of-era `yoe`: 365 days per elapsed year
plus the leap days among them (era-local Gregorian rule; years run
March..February as in the standard civil conversion). -/
def doeOfYoe (yoe : Nat) : Nat := 365 * yoe + yoe / 4 - yoe / 100

/-- Downward search for the year-of-era containing a day-of-era. -/
def yoeGo (doe : Nat) : Nat → Nat
  | 0 => 0
  | n + 1 => if doeOfYoe (n + 1) ≤ doe then n + 1 else yoeGo doe n

/-- Year-of-era of a day-of-era: the largest `yoe ≤ 399` whose first
day is not after `doe`. -/
def yoeOfDoe (doe : Nat) : Nat := yoeGo doe 399

/-- Civil date of a day-of-era within the era starting at year
`era * 400` (years counted March-first as in the standard civil
conversion; the returned date is in ordinary January-first years). -/
def civilOfDoe (era : Int) (doe : Nat) : Int × Nat × Nat :=
  let yoe : Nat := yoeOfDoe doe
  let y : Int := (yoe : Int) + era * 400
  let doy : Nat := doe - doeOfYoe yoe
  let mp : Nat := (5 * doy + 2) / 153
  let d : Nat := doy + 1 - (153 * mp + 2) / 5
  let m : Nat := if mp < 10 then mp + 3 else mp - 9
  (if m ≤ 2 then y + 1 else y, m, d)

/-- Civil date (year, month, day) of a day number, in the proleptic
Gregorian calendar (the calendar of the JS `Date`): split into a
400-year era and a day-of-era, then convert within the era. -/
def civilFromDays (z : Int) : Int × Nat × Nat :=
  let z2 : Int := z + 719468
  civilOfDoe (z2 / 146097) (z2 % 146097).toNat

/-- The decimal digit character for `n ≤ 9` (and `'9'` beyond). -/
def digitChar (n : Nat) : Char :=
  if n = 0 then '0' else if n = 1 then '1' else if n = 2 then '2'
  else if n = 3 then '3' else if n = 4 then '4' else if n = 5 then '5'
  else if n = 6 then '6' else if n = 7 then '7' else if n = 8 then '8' else '9'

/-- Decimal digits of `n < 100` padded to width 2 (`date-fns` `format`
tokens `MM` and `dd`). -/
def pad2 (n : Nat) : List Char := [digitChar (n / 10), digitChar (n % 10)]

/-- Decimal digits of `n`, left-padded with zeros to width 4 but never
truncated (`date-fns` `format` token `yyyy`). -/
def pad4 (n : Nat) : List Char :=
  if n < 10000 then
    [digitChar (n / 1000), digitChar (n / 100 % 10), digitChar (n / 10 % 10), digitChar (n % 10)]
  else Nat.toDigits 10 n

/-- The year number `date-fns` prints: era counting, so a year `y ≤ 0`
is printed as `1 - y`. -/
def yearEra (y : Int) : Int := if 0 < y then y else 1 - y

/-- `date-fns` `format(z, 'yyyy-MM-dd')`. -/
def formatDate (z : Date) : String :=
  String.mk (pad4 (yearEra (civilFromDays z).1).toNat ++
    '-' :: pad2 (civilFromDays z).2.1 ++ '-' :: pad2 (civilFromDays z).2.2)

/-- `format(d, 'yyyy-MM-dd')` applied to a freshly computed date value:
JS time values are clipped to ±8.64e15 ms of the epoch, i.e. day
numbers of magnitude at most 100000000; beyond that the `Date` is
invalid and `format` throws `RangeError('Invalid time value')`.  This
checked formatter is used on the paths whose day offset is read from
the input string and can therefore exceed the range; the fixed
small-offset paths (`today`, `tomorrow`, `yesterday`, `next <day>`)
format the wall clock plus at most 7 days, which stays valid for every
value the wall clock can hold in practice, and are modeled with the
total printer `formatDate` directly. -/
def jsFormat (z : Int) : Except String String :=
  if -100000000 ≤ z ∧ z ≤ 100000000 then Except.ok (formatDate z)
  else Except.error "Invalid time value"

/-! ### The date normalizer (`parseHumanDate`) -/

/-- `WORD_TO_NUMBER` from the source. -/
def wordToNumber (s : String) : Option Nat :=
  if s = "one" then some 1 else if s = "two" then some 2
  else if s = "three" then some 3 else if s = "four" then some 4
  else if s = "five" then some 5 else if s = "six" then some 6
  else if s = "seven" then some 7 else if s = "eight" then some 8
  else if s = "nine" then some 9 else if s = "ten" then some 10 else none

/-- What the property read `DAY_FUNCTIONS[dayName]` can yield.
`DAY_FUNCTIONS` is a plain object literal, so the read also walks the
prototype chain up to `Object.prototype`; of its properties, exactly
two have names that a lowercased `\w+` capture can produce:
`constructor` (the `Object` function, callable, and `Object(d)` for a
`Date` argument `d` returns `d` itself) and `__proto__` (the
`Object.prototype` object, truthy but not callable, so calling it
throws a `TypeError`).  Every other miss yields `undefined`
(`none`). -/
inductive DayFnSlot where
  | nextFn (code : Int)
  | objectCtor
  | objectProto

/-- `DAY_FUNCTIONS[dayName]` from the source: the seven own entries
hold `date-fns` functions (recorded by their weekday code), and the
two inherited `Object.prototype` keys reachable from a lowercase
`\w+` capture are hit as well. -/
def dayFunctions (s : String) : Option DayFnSlot :=
  if s = "monday" then some (.nextFn 1) else if s = "tuesday" then some (.nextFn 2)
  else if s = "wednesday" then some (.nextFn 3) else if s = "thursday" then some (.nextFn 4)
  else if s = "friday" then some (.nextFn 5) else if s = "saturday" then some (.nextFn 6)
  else if s = "sunday" then some (.nextFn 0)
  else if s = "constructor" then some .objectCtor
  else if s = "__proto__" then some .objectProto
  else none

/-- Validity of a `yyyy-MM-dd` triple as established by `date-fns`
`parse` + `isValid`: month 1..12 and day within the month's length. -/
def isValidYmd (y m d : Nat) : Bool :=
  decide (1 ≤ m ∧ m ≤ 12 ∧ 1 ≤ d ∧ d ≤ daysInMonth (y : Int) m)

/-- The anchored regex `^(\d{4})-(\d{2})-(\d{2})$` with the three
captured groups read as numbers. -/
def isoDateMatch (s : String) : Option (Nat × Nat × Nat) :=
  let cs := s.data
  if cs.length = 10 ∧ (cs.take 4).all isDigitCh ∧ cs.getD 4 ' ' = '-' ∧
      ((cs.drop 5).take 2).all isDigitCh ∧ cs.getD 7 ' ' = '-' ∧
      ((cs.drop 8).take 2).all isDigitCh then
    some (digitsToNat (cs.take 4), digitsToNat ((cs.drop 5).take 2),
      digitsToNat ((cs.drop 8).take 2))
  else none

/-- The anchored regex `^next\s+(\w+)$` with the captured word. -/
def nextDayMatch (s : String) : Option String :=
  let cs := s.data
  if cs.take 4 = ['n', 'e', 'x', 't'] then
    let rest := cs.drop 4
    let ws := rest.takeWhile isJsWhitespace
    let tok := rest.dropWhile isJsWhitespace
    if ws ≠ [] ∧ tok ≠ [] ∧ tok.all isWordChar then some (String.mk tok) else none
  else none

/-- Tail of the from-now regex after the quantity capture:
`\s+(days?|weeks?)\s+from\s+now$` on the remaining characters,
returning the captured unit word. -/
def fromNowTail (r1 : List Char) : Option String :=
  let ws1 := r1.takeWhile isJsWhitespace
  let r2 := r1.dropWhile isJsWhitespace
  let unit := r2.takeWhile isWordChar
  let r3 := r2.dropWhile isWordChar
  let ws2 := r3.takeWhile isJsWhitespace
  let r4 := r3.dropWhile isJsWhitespace
  if ws1 ≠ [] ∧
      (unit = ['d', 'a', 'y'] ∨ unit = ['d', 'a', 'y', 's'] ∨
        unit = ['w', 'e', 'e', 'k'] ∨ unit = ['w', 'e', 'e', 'k', 's']) ∧
      ws2 ≠ [] ∧ r4.take 4 = ['f', 'r', 'o', 'm'] ∧
      (r4.drop 4).takeWhile isJsWhitespace ≠ [] ∧
      (r4.drop 4).dropWhile isJsWhitespace = ['n', 'o', 'w'] then
    some (String.mk unit)
  else none

/-- The anchored regex `^(\w+)\s+(days?|weeks?)\s+from\s+now$` with the
two captured groups (quantity token and unit word). -/
def fromNowMatch (s : String) : Option (String × String) :=
  let cs := s.data
  let tok := cs.takeWhile isWordChar
  let r1 := cs.dropWhile isWordChar
  if tok ≠ [] then
    match fromNowTail r1 with
    | some unit => some (String.mk tok, unit)
    | none => none
  else none

/-- The anchored regex `^today\s*\+\s*(\d+)\s*(days?|weeks?)$` with the
two captured groups. -/
def additionMatch (s : String) : Option (String × String) :=
  let cs := s.data
  if cs.take 5 = ['t', 'o', 'd', 'a', 'y'] then
    match (cs.drop 5).dropWhile isJsWhitespace with
    | '+' :: r2 =>
      let r3 := r2.dropWhile isJsWhitespace
      let digits := r3.takeWhile isDigitCh
      let r4 := r3.dropWhile isDigitCh
      let unit := r4.dropWhile isJsWhitespace
      if digits ≠ [] ∧
          (unit = ['d', 'a', 'y'] ∨ unit = ['d', 'a', 'y', 's'] ∨
            unit = ['w', 'e', 'e', 'k'] ∨ unit = ['w', 'e', 'e', 'k', 's']) then
        some (String.mk digits, String.mk unit)
      else none
    | _ => none
  else none

/-- Continuation of `parseHumanDate` after the `next <day>` test: the
`from now` pattern, then the `today + ...` pattern, then the final
throw.  The added offset comes from the input here, so the result can
leave the JS `Date` range and formatting goes through the checked
`jsFormat`. -/
def parseTail (now : Date) (input normalized : String) : Except String String :=
  match fromNowMatch normalized with
  | some (quantityStr, unit) =>
    let quantity : Option Nat :=
      match wordToNumber quantityStr with
      | some n => some n
      | none => jsParseIntDec quantityStr
    match quantity with
    | none => Except.error ("Unable to parse date: " ++ input)
    | some q =>
      if jsStartsWith unit "week" then jsFormat (addDays now (7 * (q : Int)))
      else jsFormat (addDays now (q : Int))
  | none =>
    match additionMatch normalized with
    | some (quantityStr, unit) =>
      match jsParseIntDec quantityStr with
      | none => Except.error ("Unable to parse date: " ++ input)
      | some q =>
        if jsStartsWith unit "week" then jsFormat (addDays now (7 * (q : Int)))
        else jsFormat (addDays now (q : Int))
    | none => Except.error ("Unable to parse date: " ++ input)

/-- The branch cascade of `parseHumanDate` on the normalized input
(`input` is kept for the error messages, as in the source). -/
def parseNormalized (now : Date) (input normalized : String) : Except String String :=
  if normalized = "" then Except.error "Unable to parse date: "
  else
    match isoDateMatch normalized with
    | some ymd =>
      if isValidYmd ymd.1 ymd.2.1 ymd.2.2 then Except.ok normalized
      else Except.error ("Unable to parse date: " ++ input)
    | none =>
      if normalized = "today" then Except.ok (formatDate now)
      else if normalized = "tomorrow" then Except.ok (formatDate (addDays now 1))
      else if normalized = "yesterday" then Except.ok (formatDate (addDays now (-1)))
      else if normalized = "next week" then Except.ok (formatDate (nextWeekdayDate 1 now))
      else
        match nextDayMatch normalized with
        | some dayName =>
          match dayFunctions dayName with
          | some (.nextFn code) => Except.ok (formatDate (nextWeekdayDate code now))
          | some .objectCtor => Except.ok (formatDate now)
          | some .objectProto => Except.error "dayFunction is not a function"
          | none => parseTail now input normalized
        | none => parseTail now input normalized

/-- `parseHumanDate` from the source; `Except.error` models `throw new
Error(...)` and `now` models the wall clock read by `new Date()`. -/
def parseHumanDate (now : Date) (input : String) : Except String String :=
  parseNormalized now input (jsToLower (jsTrim input))

/-! ### Tool registry and executor -/

/-- A JS thrown value: either an `Error` carrying a message, or any
other thrown value (no message available). -/
inductive JsThrown where
  | errorWithMessage (msg : String) : JsThrown
  | nonErrorValue : JsThrown
deriving DecidableEq

/-- `error instanceof Error ? error.message : 'Unknown error'`. -/
def JsThrown.caughtMessage : JsThrown → String
  | JsThrown.errorWithMessage m => m
  | JsThrown.nonErrorValue => "Unknown error"

/-- `ToolDefinition` from the source: the two `parameters*` fields hold
the declarative JSON-schema metadata; `execute` is the async handler,
which may throw. -/
structure ToolDefinition (α β : Type) where
  name : String
  description : String
  parametersProperties : List (String × String)
  parametersRequired : List String
  execute : α → Except JsThrown β

/-- `ToolInvocation` from the source. -/
structure ToolInvocation (α : Type) where
  id : String
  name : String
  parameters : α
deriving DecidableEq

/-- `ToolResult` from the source: all of `result`, `error`, `durationMs`
are optional fields of the record. -/
structure ToolResult (β : Type) where
  id : String
  name : String
  result : Option β := none
  error : Option String := none
  durationMs : Option Int := none
deriving DecidableEq

/-- The `Map` inside `ToolRegistry`, as an insertion-ordered association
list. -/
structure ToolRegistry (α β : Type) where
  tools : List (String × ToolDefinition α β)

/-- `ToolRegistry.get`. -/
def ToolRegistry.get (r : ToolRegistry α β) (name : String) :
    Option (ToolDefinition α β) :=
  (r.tools.find? (fun p => p.1 == name)).map (fun p => p.2)

/-- `ToolRegistry.has`. -/
def ToolRegistry.has (r : ToolRegistry α β) (name : String) : Bool :=
  (r.tools.find? (fun p => p.1 == name)).isSome

/-- `ToolRegistry.getAll`. -/
def ToolRegistry.getAll (r : ToolRegistry α β) : List (ToolDefinition α β) :=
  r.tools.map (fun p => p.2)

/-- `ToolRegistry.register`, as a state transformer: the first component
is the registry state after the call, the second the raised duplicate
error, if any (the source throws before reaching `Map.set`). -/
def ToolRegistry.registerRun (r : ToolRegistry α β) (tool : ToolDefinition α β) :
    ToolRegistry α β × Option String :=
  if r.has tool.name then
    (r, some ("Tool \"" ++ tool.name ++ "\" is already registered"))
  else
    (ToolRegistry.mk (r.tools ++ [(tool.name, tool)]), none)

/-- The `try` block of `executeTool`: look the tool up (throwing when it
is absent) and run its handler. -/
def executeTryBody (reg : ToolRegistry α β) (inv : ToolInvocation α) :
    Except JsThrown β :=
  match reg.get inv.name with
  | none => Except.error (JsThrown.errorWithMessage ("Tool \"" ++ inv.name ++ "\" not found"))
  | some tool => tool.execute inv.parameters

/-- `executeTool` from the source.  `startTime` and `endTime` are the two
`performance.now()` readings; the outer `Except` is the async function's
rejection channel, which the catch-all keeps empty. -/
def executeTool (reg : ToolRegistry α β) (inv : ToolInvocation α)
    (startTime endTime : ℚ) : Except JsThrown (ToolResult β) :=
  match executeTryBody reg inv with
  | Except.ok v =>
    Except.ok (ToolResult.mk inv.id inv.name (some v) none
      (some (round (endTime - startTime))))
  | Except.error e =>
    Except.ok (ToolResult.mk inv.id inv.name none (some (JsThrown.caughtMessage e))
      (some (round (endTime - startTime))))

/-- `Promise.all`: the first rejection, else the list of resolutions. -/
def promiseAll : List (Except JsThrown γ) → Except JsThrown (List γ)
  | [] => Except.ok []
  | x :: xs =>
    match x with
    | Except.error e => Except.error e
    | Except.ok v =>
      match promiseAll xs with
      | Except.error e => Except.error e
      | Except.ok vs => Except.ok (v :: vs)

/-- `executeTools` from the source:
`Promise.all(invocations.map(executeTool))`, where `times i` is the pair
of clock readings for invocation `i`. -/
def executeTools (reg : ToolRegistry α β) (invs : List (ToolInvocation α))
    (times : Nat → ℚ × ℚ) : Except JsThrown (List (ToolResult β)) :=
  promiseAll (invs.enum.map (fun p => executeTool reg p.2 (times p.1).1 (times p.1).2))

/-! ### The `parse_date` tool -/

/-- Parameter bag of the `parse_date` tool
(`params as { dateString: string }`). -/
structure DateParserParams where
  dateString : String
deriving DecidableEq

/-- The object literal returned by the `parse_date` handler. -/
structure DateParseOutcome where
  success : Bool
  date : Option String := none
  error : Option String := none
  originalInput : String
deriving DecidableEq

/-- The `execute` handler of `dateParserTool`: runs the Date Normalizer
and converts its raised failure into a `success: false` payload (every
failure raised by `parseHumanDate` is an `Error` carrying a message, so
the `instanceof` fallback never fires here). -/
def dateParserExecute (now : Date) (params : DateParserParams) :
    Except JsThrown DateParseOutcome :=
  Except.ok
    (match parseHumanDate now params.dateString with
     | Except.ok d => DateParseOutcome.mk true (some d) none params.dateString
     | Except.error msg => DateParseOutcome.mk false none (some msg) params.dateString)

/-- `dateParserTool` from the source. -/
def dateParserTool (now : Date) : ToolDefinition DateParserParams DateParseOutcome :=
  ToolDefinition.mk "parse_date"
    "Converts human-readable date strings into YYYY-MM-DD format."
    [("dateString", "string")] ["dateString"]
    (dateParserExecute now)

/-! ### Helper lemmas for the executor -/

/-- The `ToolResult` value that `executeTool` resolves with. -/
def executeToolRes (reg : ToolRegistry α β) (inv : ToolInvocation α)
    (t0 t1 : ℚ) : ToolResult β :=
  match executeTryBody reg inv with
  | Except.ok v => ToolResult.mk inv.id inv.name (some v) none (some (round (t1 - t0)))
  | Except.error e =>
    ToolResult.mk inv.id inv.name none (some e.caughtMessage) (some (round (t1 - t0)))

theorem executeTool_eq_ok (reg : ToolRegistry α β) (inv : ToolInvocation α)
    (t0 t1 : ℚ) :
    executeTool reg inv t0 t1 = Except.ok (executeToolRes reg inv t0 t1) := by
  unfold executeTool executeToolRes
  cases executeTryBody reg inv <;> rfl

theorem promiseAll_map_ok {γ δ : Type} (f : δ → γ) (l : List δ) :
    promiseAll (l.map (fun x => Except.ok (f x))) = Except.ok (l.map f) := by
  induction l with
  | nil => rfl
  | cons a t ih => simp [promiseAll, ih]

theorem round_sub_nonneg {t0 t1 : ℚ} (h : t0 ≤ t1) : 0 ≤ round (t1 - t0) := by
  rw [round_eq]
  have h2 : (0 : ℚ) ≤ t1 - t0 + 1 / 2 := by linarith
  exact Int.le_floor.mpr (by exact_mod_cast h2)

/-! ### C1: the executor never raises and captures handler failures -/

/-- C1: `executeTool` always resolves with a Tool Result (never rejects);
when the looked-up handler raises an `Error`, its message lands in the
result's `error` field, and when it raises a non-`Error` value the
`error` field is exactly `"Unknown error"`. -/
theorem executeTool_never_raises_and_captures_errors {α β : Type}
    (reg : ToolRegistry α β) (inv : ToolInvocation α) (t0 t1 : ℚ) :
    (∃ res, executeTool reg inv t0 t1 = Except.ok res) ∧
    (∀ tool : ToolDefinition α β, ∀ m : String,
      reg.get inv.name = some tool →
      tool.execute inv.parameters = Except.error (JsThrown.errorWithMessage m) →
      executeTool reg inv t0 t1 =
        Except.ok (ToolResult.mk inv.id inv.name none (some m)
          (some (round (t1 - t0))))) ∧
    (∀ tool : ToolDefinition α β,
      reg.get inv.name = some tool →
      tool.execute inv.parameters = Except.error JsThrown.nonErrorValue →
      executeTool reg inv t0 t1 =
        Except.ok (ToolResult.mk inv.id inv.name none (some "Unknown error")
          (some (round (t1 - t0))))) := by
  refine ⟨⟨executeToolRes reg inv t0 t1, executeTool_eq_ok reg inv t0 t1⟩, ?_, ?_⟩
  · intro tool m hget hexec
    simp [executeTool, executeTryBody, hget, hexec, JsThrown.caughtMessage]
  · intro tool hget hexec
    simp [executeTool, executeTryBody, hget, hexec, JsThrown.caughtMessage]

/-- Concrete tool whose handler always raises an `Error`. -/
def failingTool : ToolDefinition Unit Unit :=
  ToolDefinition.mk "boom" "always fails" [] []
    (fun _ => Except.error (JsThrown.errorWithMessage "boom failed"))

/-- Concrete registry holding `failingTool`. -/
def regBoom : ToolRegistry Unit Unit := ToolRegistry.mk [("boom", failingTool)]

theorem executeTool_never_raises_witness :
    executeTool regBoom (ToolInvocation.mk "i1" "boom" ()) 0 0 =
      Except.ok (ToolResult.mk "i1" "boom" none (some "boom failed") (some 0)) := by
  have h := (executeTool_never_raises_and_captures_errors regBoom
    (ToolInvocation.mk "i1" "boom" ()) 0 0).2.1 failingTool "boom failed" rfl rfl
  simpa using h

/-! ### C2: batch execution is positional and isolated -/

/-- C2: `executeTools` resolves with exactly one result per invocation,
the result at index `i` being `executeTool` of the invocation at index
`i` (so one invocation's failure cannot influence any other's result). -/
theorem executeTools_positional {α β : Type} (reg : ToolRegistry α β)
    (invs : List (ToolInvocation α)) (times : Nat → ℚ × ℚ) :
    ∃ rs : List (ToolResult β), executeTools reg invs times = Except.ok rs ∧
      rs.length = invs.length ∧
      ∀ i : Nat, ∀ hi : i < rs.length, ∀ hi2 : i < invs.length,
        Except.ok (rs.get ⟨i, hi⟩) =
          executeTool reg (invs.get ⟨i, hi2⟩) (times i).1 (times i).2 := by
  refine ⟨invs.enum.map (fun p => executeToolRes reg p.2 (times p.1).1 (times p.1).2),
    ?_, ?_, ?_⟩
  · unfold executeTools
    have hcong : invs.enum.map (fun p => executeTool reg p.2 (times p.1).1 (times p.1).2) =
        invs.enum.map (fun p =>
          Except.ok (executeToolRes reg p.2 (times p.1).1 (times p.1).2)) := by
      apply List.map_congr_left
      intro p _
      exact executeTool_eq_ok reg p.2 (times p.1).1 (times p.1).2
    rw [hcong]
    exact promiseAll_map_ok _ _
  · simp
  · intro i hi hi2
    have hlen : i < invs.enum.length := by simpa using hi2
    rw [List.get_map]
    have henum : invs.enum.get ⟨i, hlen⟩ = (i, invs.get ⟨i, hi2⟩) := by
      simp [List.get_enum]
    rw [henum, executeTool_eq_ok]

theorem executeTools_positional_witness :
    executeTools regBoom [ToolInvocation.mk "i1" "boom" (), ToolInvocation.mk "i2" "nope" ()]
      (fun _ => (0, 0)) =
      Except.ok [ToolResult.mk "i1" "boom" none (some "boom failed") (some 0),
        ToolResult.mk "i2" "nope" none (some "Tool \"nope\" not found") (some 0)] := by
  obtain ⟨rs, hok, hlen, hpt⟩ := executeTools_positional regBoom
    [ToolInvocation.mk "i1" "boom" (), ToolInvocation.mk "i2" "nope" ()] (fun _ => (0, 0))
  rw [hok]
  have e0 : executeTool regBoom (ToolInvocation.mk "i1" "boom" ()) 0 0 =
      Except.ok (ToolResult.mk "i1" "boom" none (some "boom failed") (some 0)) := by
    rw [executeTool_eq_ok]
    show Except.ok (ToolResult.mk "i1" "boom" none (some "boom failed")
      (some (round ((0 : ℚ) - 0)))) = _
    norm_num
  have e1 : executeTool regBoom (ToolInvocation.mk "i2" "nope" ()) 0 0 =
      Except.ok (ToolResult.mk "i2" "nope" none (some "Tool \"nope\" not found") (some 0)) := by
    rw [executeTool_eq_ok]
    show Except.ok (ToolResult.mk "i2" "nope" none (some "Tool \"nope\" not found")
      (some (round ((0 : ℚ) - 0)))) = _
    norm_num
  rcases rs with _ | ⟨a, rs2⟩
  · simp at hlen
  rcases rs2 with _ | ⟨b, rs3⟩
  · simp at hlen
  rcases rs3 with _ | ⟨c, rs4⟩
  · have h0 : Except.ok a = executeTool regBoom (ToolInvocation.mk "i1" "boom" ()) 0 0 :=
      hpt 0 (by simp) (by simp)
    have h1 : Except.ok b = executeTool regBoom (ToolInvocation.mk "i2" "nope" ()) 0 0 :=
      hpt 1 (by simp) (by simp)
    rw [e0] at h0
    rw [e1] at h1
    injection h0 with ha
    injection h1 with hb
    rw [ha, hb]
  · simp at hlen

/-! ### C3: the Tool Result record invariant -/

/-- C3: every Tool Result produced by `executeTool` has exactly one of
`result`/`error` set, always carries a non-negative integral
`durationMs`, and echoes the invocation's `id` and `name`. -/
theorem executeTool_result_invariant {α β : Type} (reg : ToolRegistry α β)
    (inv : ToolInvocation α) (t0 t1 : ℚ) (res : ToolResult β)
    (hle : t0 ≤ t1) (h : executeTool reg inv t0 t1 = Except.ok res) :
    (((∃ v, res.result = some v) ∧ res.error = none) ∨
      (res.result = none ∧ ∃ m, res.error = some m)) ∧
    res.durationMs = some (round (t1 - t0)) ∧
    (∀ d, res.durationMs = some d → 0 ≤ d) ∧
    res.id = inv.id ∧ res.name = inv.name := by
  rw [executeTool_eq_ok] at h
  injection h with h2
  subst h2
  unfold executeToolRes
  cases executeTryBody reg inv with
  | ok v =>
    refine ⟨Or.inl ⟨⟨v, rfl⟩, rfl⟩, rfl, ?_, rfl, rfl⟩
    intro d hd
    injection hd with hd2
    rw [← hd2]
    exact round_sub_nonneg hle
  | error e =>
    refine ⟨Or.inr ⟨rfl, ⟨e.caughtMessage, rfl⟩⟩, rfl, ?_, rfl, rfl⟩
    intro d hd
    injection hd with hd2
    rw [← hd2]
    exact round_sub_nonneg hle

theorem executeTool_result_invariant_witness :
    ((0 : ℚ) ≤ 1) ∧
    ((((∃ v, (ToolResult.mk "i1" "boom" (none : Option Unit) (some "boom failed")
        (some (round ((1 : ℚ) - 0)))).result = some v) ∧
      (ToolResult.mk "i1" "boom" (none : Option Unit) (some "boom failed")
        (some (round ((1 : ℚ) - 0)))).error = none) ∨
      ((ToolResult.mk "i1" "boom" (none : Option Unit) (some "boom failed")
        (some (round ((1 : ℚ) - 0)))).result = none ∧
        ∃ m, (ToolResult.mk "i1" "boom" (none : Option Unit) (some "boom failed")
          (some (round ((1 : ℚ) - 0)))).error = some m)) ∧
    (ToolResult.mk "i1" "boom" (none : Option Unit) (some "boom failed")
      (some (round ((1 : ℚ) - 0)))).durationMs = some (round ((1 : ℚ) - 0)) ∧
    (∀ d, (ToolResult.mk "i1" "boom" (none : Option Unit) (some "boom failed")
      (some (round ((1 : ℚ) - 0)))).durationMs = some d → 0 ≤ d) ∧
    (ToolResult.mk "i1" "boom" (none : Option Unit) (some "boom failed")
      (some (round ((1 : ℚ) - 0)))).id = "i1" ∧
    (ToolResult.mk "i1" "boom" (none : Option Unit) (some "boom failed")
      (some (round ((1 : ℚ) - 0)))).name = "boom") := by
  refine ⟨by norm_num, ?_⟩
  exact executeTool_result_invariant regBoom (ToolInvocation.mk "i1" "boom" ()) 0 1 _
    (by norm_num) (executeTool_eq_ok regBoom (ToolInvocation.mk "i1" "boom" ()) 0 1)

/-! ### C4: duplicate registration fails without replacing -/

/-- C4: registering a Tool Definition whose name is already present
raises the duplicate error and leaves the registry unchanged, so the
originally registered definition is still returned by `get`. -/
theorem register_duplicate_rejected {α β : Type} (r : ToolRegistry α β)
    (tool d0 : ToolDefinition α β) (h : r.get tool.name = some d0) :
    r.registerRun tool =
      (r, some ("Tool \"" ++ tool.name ++ "\" is already registered")) ∧
    (r.registerRun tool).1.get tool.name = some d0 := by
  have hhas : r.has tool.name = true := by
    unfold ToolRegistry.get at h
    unfold ToolRegistry.has
    cases hf : r.tools.find? (fun p => p.1 == tool.name) with
    | none => rw [hf] at h; simp at h
    | some p => simp
  have hrun : r.registerRun tool =
      (r, some ("Tool \"" ++ tool.name ++ "\" is already registered")) := by
    unfold ToolRegistry.registerRun
    rw [hhas]
    simp
  exact ⟨hrun, by rw [hrun]; exact h⟩

/-- A second tool definition carrying the name `"boom"`. -/
def boomClone : ToolDefinition Unit Unit :=
  ToolDefinition.mk "boom" "a different tool with the same name" [] []
    (fun _ => Except.ok ())

theorem register_duplicate_rejected_witness :
    regBoom.registerRun boomClone =
      (regBoom, some ("Tool \"boom\" is already registered")) ∧
    (regBoom.registerRun boomClone).1.get "boom" = some failingTool := by
  exact register_duplicate_rejected regBoom boomClone failingTool rfl

/-! ### C5: unregistered tool name -/

/-- C5: executing an invocation whose name is not registered produces a
failure result whose `error` is exactly `Tool "<name>" not found`, whose
`result` is unset and whose `durationMs` is non-negative. -/
theorem executeTool_unregistered {α β : Type} (reg : ToolRegistry α β)
    (inv : ToolInvocation α) (t0 t1 : ℚ) (h : reg.get inv.name = none) :
    executeTool reg inv t0 t1 =
      Except.ok (ToolResult.mk inv.id inv.name none
        (some ("Tool \"" ++ inv.name ++ "\" not found")) (some (round (t1 - t0)))) ∧
    (t0 ≤ t1 → 0 ≤ round (t1 - t0)) := by
  constructor
  · simp [executeTool, executeTryBody, h, JsThrown.caughtMessage]
  · intro hle
    exact round_sub_nonneg hle

theorem executeTool_unregistered_witness :
    executeTool (ToolRegistry.mk ([] : List (String × ToolDefinition Unit Unit)))
      (ToolInvocation.mk "i9" "ghost" ()) 0 0 =
      Except.ok (ToolResult.mk "i9" "ghost" none
        (some ("Tool \"ghost\" not found")) (some (round ((0 : ℚ) - 0)))) ∧
    ((0 : ℚ) ≤ 0 → 0 ≤ round ((0 : ℚ) - 0)) := by
  exact executeTool_unregistered (ToolRegistry.mk []) (ToolInvocation.mk "i9" "ghost" ()) 0 0 rfl

/-! ### C10: parse failures are contained by the `parse_date` handler -/

/-- C10: when the Date Normalizer raises on the invocation's
`dateString`, the `parse_date` handler does not let the failure
propagate: it resolves with a `success: false` payload carrying the
parse error, and `executeTool` on that invocation resolves with a Tool
Result whose payload records the parse failure as a failure (while the
executor-level `error` channel stays empty, since nothing was thrown at
it). -/
theorem dateParser_failure_contained (now : Date) (ds iid : String)
    (msg : String) (t0 t1 : ℚ) (h : parseHumanDate now ds = Except.error msg) :
    dateParserExecute now (DateParserParams.mk ds) =
      Except.ok (DateParseOutcome.mk false none (some msg) ds) ∧
    (∀ reg : ToolRegistry DateParserParams DateParseOutcome,
      reg.get "parse_date" = some (dateParserTool now) →
      executeTool reg (ToolInvocation.mk iid "parse_date" (DateParserParams.mk ds)) t0 t1 =
        Except.ok (ToolResult.mk iid "parse_date"
          (some (DateParseOutcome.mk false none (some msg) ds)) none
          (some (round (t1 - t0))))) := by
  have hexec : dateParserExecute now (DateParserParams.mk ds) =
      Except.ok (DateParseOutcome.mk false none (some msg) ds) := by
    unfold dateParserExecute
    rw [h]
  refine ⟨hexec, ?_⟩
  intro reg hreg
  have hbody : executeTryBody reg
      (ToolInvocation.mk iid "parse_date" (DateParserParams.mk ds)) =
      Except.ok (DateParseOutcome.mk false none (some msg) ds) := by
    unfold executeTryBody
    rw [hreg]
    exact hexec
  unfold executeTool
  rw [hbody]

/-- Concrete registry holding only the `parse_date` tool with a frozen
clock. -/
def regParseDate : ToolRegistry DateParserParams DateParseOutcome :=
  ToolRegistry.mk [("parse_date", dateParserTool (mkDate 2025 11 18))]

theorem dateParser_failure_contained_witness :
    dateParserExecute (mkDate 2025 11 18) (DateParserParams.mk "gibberish") =
      Except.ok (DateParseOutcome.mk false none
        (some "Unable to parse date: gibberish") "gibberish") ∧
    executeTool regParseDate (ToolInvocation.mk "i3" "parse_date"
        (DateParserParams.mk "gibberish")) 0 0 =
      Except.ok (ToolResult.mk "i3" "parse_date"
        (some (DateParseOutcome.mk false none
          (some "Unable to parse date: gibberish") "gibberish")) none
        (some (round ((0 : ℚ) - 0)))) := by
  have h := dateParser_failure_contained (mkDate 2025 11 18) "gibberish" "i3"
    "Unable to parse date: gibberish" 0 0 rfl
  exact ⟨h.1, h.2 regParseDate rfl⟩

/-! ### C8: `next <weekday>` is strictly after the current date -/

/-- The seven weekday names accepted after `next`, with the weekday code
of the `date-fns` function `DAY_FUNCTIONS` stores for them. -/
def weekdayNames : List (String × Int) :=
  [("Monday", 1), ("Tuesday", 2), ("Wednesday", 3), ("Thursday", 4),
   ("Friday", 5), ("Saturday", 6), ("Sunday", 0)]

/-- C8: for every current date and weekday name, `next <weekday>` parses
to the next occurrence of that weekday strictly after the current date
(never the current date itself, even when today already is that
weekday); under the frozen Tuesday 2025-11-18, `next Friday` yields
2025-11-21 and `next Monday` yields 2025-11-24. -/
theorem nextWeekday_strictly_after (now : Int) (name : String) (t : Int)
    (hmem : (name, t) ∈ weekdayNames) :
    (parseHumanDate now ("next " ++ name) =
      Except.ok (formatDate (nextWeekdayDate t now)) ∧
     now < nextWeekdayDate t now ∧
     weekday (nextWeekdayDate t now) = t ∧
     ∀ e : Int, now < e → e < nextWeekdayDate t now → weekday e ≠ t) ∧
    parseHumanDate (mkDate 2025 11 18) "next Friday" = Except.ok "2025-11-21" ∧
    parseHumanDate (mkDate 2025 11 18) "next Monday" = Except.ok "2025-11-24" := by
  refine ⟨?_, rfl, rfl⟩
  fin_cases hmem <;>
    refine ⟨rfl, by simp only [nextWeekdayDate, weekday]; omega,
      by simp only [nextWeekdayDate, weekday]; omega, ?_⟩ <;>
    · intro e h1 h2
      simp only [nextWeekdayDate, weekday] at h2 ⊢
      omega

theorem nextWeekday_strictly_after_witness :
    parseHumanDate (mkDate 2025 11 18) "next Friday" = Except.ok "2025-11-21" :=
  (nextWeekday_strictly_after (mkDate 2025 11 18) "Friday" 5 (by decide)).2.1

/-! ### C6: unparseable inputs fail (with a caveat about the message) -/

theorem strContains_append_self (pre s : String) : strContains (pre ++ s) s = true := by
  unfold strContains
  rw [List.any_eq_true]
  refine ⟨pre.data.length, List.mem_range.mpr ?_, ?_⟩
  · rw [String.data_append, List.length_append]
    omega
  · rw [String.data_append, List.drop_left, List.take_length]
    exact beq_self_eq_true _

theorem parseTail_error (now : Int) (input n : String)
    (hfrom : ∀ tok unit, fromNowMatch n = some (tok, unit) →
      wordToNumber tok = none ∧ jsParseIntDec tok = none)
    (hadd : additionMatch n = none) :
    parseTail now input n = Except.error ("Unable to parse date: " ++ input) := by
  unfold parseTail
  cases hf : fromNowMatch n with
  | none => rw [hadd]
  | some p =>
    obtain ⟨tok, unit⟩ := p
    obtain ⟨h1, h2⟩ := hfrom tok unit hf
    simp only [h1, h2]

/-- C6 counterexample: three inputs that match none of the recognized
date patterns but do not fail with a message containing the input.
A whitespace-only input fails with the fixed message `Unable to parse
date: `, which does not contain the original two-space input; `next
constructor` does not fail at all — the property read on the day-name
table walks the prototype chain, finds `Object`, and the call returns
the current date; and `next __proto__` finds the non-callable
`Object.prototype`, so the call throws a `TypeError` whose message does
not contain the input. -/
theorem unparseable_message_counterexample :
    (parseHumanDate 0 "  " = Except.error "Unable to parse date: " ∧
     strContains "Unable to parse date: " "  " = false) ∧
    parseHumanDate (mkDate 2025 11 18) "next constructor" = Except.ok "2025-11-18" ∧
    (parseHumanDate 0 "next __proto__" =
       Except.error "dayFunction is not a function" ∧
     strContains "dayFunction is not a function" "next __proto__" = false) :=
  ⟨⟨rfl, by decide⟩, rfl, rfl, by decide⟩

/-- C6 (amended): every input that matches none of the patterns the
code recognizes — no valid ISO match, no keyword, no `next <day>`
whose captured day name hits the day-function table (its own seven
weekday keys or its two inherited `Object.prototype` keys), no `from
now` match with a usable quantity token, no `today + ...` match —
fails; the failure message is `Unable to parse date: <input>` (which
contains the original input) except when the trimmed, lowercased input
is empty (empty or whitespace-only input), where the message is the
fixed string `Unable to parse date: `.  The two inherited keys escape
the original claim entirely: `next constructor` succeeds with the
current date, and `next __proto__` throws a `TypeError` whose message
does not mention the input. -/
theorem unparseable_inputs_fail (now : Int) (input : String)
    (h : (∀ y m d, isoDateMatch (jsToLower (jsTrim input)) = some (y, m, d) →
        isValidYmd y m d = false) ∧
      jsToLower (jsTrim input) ≠ "today" ∧
      jsToLower (jsTrim input) ≠ "tomorrow" ∧
      jsToLower (jsTrim input) ≠ "yesterday" ∧
      jsToLower (jsTrim input) ≠ "next week" ∧
      (∀ w, nextDayMatch (jsToLower (jsTrim input)) = some w → dayFunctions w = none) ∧
      (∀ tok unit, fromNowMatch (jsToLower (jsTrim input)) = some (tok, unit) →
        wordToNumber tok = none ∧ jsParseIntDec tok = none) ∧
      additionMatch (jsToLower (jsTrim input)) = none) :
    (∃ msg, parseHumanDate now input = Except.error msg ∧
      (jsToLower (jsTrim input) = "" → msg = "Unable to parse date: ") ∧
      (jsToLower (jsTrim input) ≠ "" →
        msg = "Unable to parse date: " ++ input ∧ strContains msg input = true)) ∧
    parseHumanDate now "next constructor" = Except.ok (formatDate now) ∧
    parseHumanDate now "next __proto__" =
      Except.error "dayFunction is not a function" := by
  refine ⟨?_, rfl, rfl⟩
  obtain ⟨hiso, ht1, ht2, ht3, ht4, hnext, hfrom, hadd⟩ := h
  by_cases hn : jsToLower (jsTrim input) = ""
  · refine ⟨"Unable to parse date: ", ?_, fun _ => rfl, fun hc => absurd hn hc⟩
    unfold parseHumanDate parseNormalized
    rw [if_pos hn]
  · refine ⟨"Unable to parse date: " ++ input, ?_, fun hc => absurd hc hn,
      fun _ => ⟨rfl, strContains_append_self _ _⟩⟩
    unfold parseHumanDate parseNormalized
    rw [if_neg hn]
    cases hio : isoDateMatch (jsToLower (jsTrim input)) with
    | some ymd =>
      have hv := hiso ymd.1 ymd.2.1 ymd.2.2 (by rw [hio])
      simp only [hv, Bool.false_eq_true, if_false]
    | none =>
      rw [if_neg ht1, if_neg ht2, if_neg ht3, if_neg ht4]
      cases hnd : nextDayMatch (jsToLower (jsTrim input)) with
      | none => exact parseTail_error now input _ hfrom hadd
      | some w =>
        have hd := hnext w hnd
        simp only [hd]
        exact parseTail_error now input _ hfrom hadd

theorem unparseable_inputs_fail_witness :
    parseHumanDate 0 "gibberish" = Except.error "Unable to parse date: gibberish" ∧
    strContains "Unable to parse date: gibberish" "gibberish" = true := by
  obtain ⟨⟨msg, herr, _, hgen⟩, _, _⟩ := unparseable_inputs_fail 0 "gibberish"
    ⟨fun y m d hc => Option.noConfusion hc, by decide, by decide, by decide, by decide,
      fun w hc => Option.noConfusion hc, fun tok unit hc => Option.noConfusion hc, rfl⟩
  obtain ⟨hmsg, hcont⟩ := hgen (by decide)
  rw [hmsg] at herr hcont
  exact ⟨herr, hcont⟩

/-! ### C9: the `from now` quantity semantics (corrected) -/

theorem wordChar_not_ws {c : Char} (h : isWordChar c = true) : isJsWhitespace c = false := by
  unfold isWordChar isDigitCh at h
  unfold isJsWhitespace
  simp at h ⊢
  omega

theorem str_ne_of_length_ne {s t : String} (h : s.data.length ≠ t.data.length) : s ≠ t :=
  fun hc => h (by rw [hc])

theorem str_ne_empty {s : String} (h : s.data ≠ []) : s ≠ "" :=
  fun hc => h (by rw [hc])

theorem isoDateMatch_eq_none_of_length {s : String} (h : s.data.length ≠ 10) :
    isoDateMatch s = none := by
  simp only [isoDateMatch]
  rw [if_neg (fun hc => h hc.1)]

theorem jsTrim_eq_self {s : String} {a b : Char} {mid : List Char}
    (hdata : s.data = a :: (mid ++ [b]))
    (ha : isJsWhitespace a = false) (hb : isJsWhitespace b = false) :
    jsTrim s = s := by
  apply String.ext
  show ((s.data.dropWhile isJsWhitespace).reverse.dropWhile isJsWhitespace).reverse = s.data
  rw [hdata, List.dropWhile_cons, ha]
  simp only [Bool.false_eq_true, if_false]
  rw [show (a :: (mid ++ [b])).reverse = b :: (mid.reverse ++ [a]) by
    simp [List.reverse_cons, List.reverse_append]]
  rw [List.dropWhile_cons, hb]
  simp only [Bool.false_eq_true, if_false]
  simp [List.reverse_append]

theorem jsToLower_eq_self {s : String}
    (h : ∀ c ∈ s.data, jsToLowerChar c = c) : jsToLower s = s := by
  apply String.ext
  show s.data.map jsToLowerChar = s.data
  rw [show s.data.map jsToLowerChar = s.data.map id from
    List.map_congr_left (fun c hc => h c hc), List.map_id]

theorem takeWhile_append_cons {p : Char → Bool} {l1 : List Char} {c : Char} {t : List Char}
    (h : ∀ x ∈ l1, p x = true) (hc : p c = false) :
    (l1 ++ c :: t).takeWhile p = l1 ∧ (l1 ++ c :: t).dropWhile p = c :: t := by
  induction l1 with
  | nil => simp [List.takeWhile_cons, List.dropWhile_cons, hc]
  | cons a l ih =>
    have ha := h a (by simp)
    have ih2 := ih (fun x hx => h x (by simp [hx]))
    simp [List.takeWhile_cons, List.dropWhile_cons, ha, ih2.1, ih2.2]

theorem nextDay_none_of_ends_w {s : String} (hlast : s.data.getLast? = some 'w') :
    ∀ w, nextDayMatch s = some w → dayFunctions w = none := by
  intro w hmatch
  simp only [nextDayMatch] at hmatch
  split_ifs at hmatch with h1 h2
  · injection hmatch with hw
    obtain ⟨hws, htok, hall⟩ := h2
    have hwd : w.data = (s.data.drop 4).dropWhile isJsWhitespace := by rw [← hw]
    have hdecomp : (s.data.take 4 ++ (s.data.drop 4).takeWhile isJsWhitespace) ++ w.data
        = s.data := by
      rw [hwd, List.append_assoc, List.takeWhile_append_dropWhile, List.take_append_drop]
    have hlw : w.data.getLast? = some 'w' := by
      rw [← hdecomp] at hlast
      rwa [List.getLast?_append_of_ne_nil _ (by rw [hwd]; exact htok)] at hlast
    unfold dayFunctions
    split_ifs with e1 e2 e3 e4 e5 e6 e7 e8 e9
    · rw [e1] at hlw; exact absurd hlw (by decide)
    · rw [e2] at hlw; exact absurd hlw (by decide)
    · rw [e3] at hlw; exact absurd hlw (by decide)
    · rw [e4] at hlw; exact absurd hlw (by decide)
    · rw [e5] at hlw; exact absurd hlw (by decide)
    · rw [e6] at hlw; exact absurd hlw (by decide)
    · rw [e7] at hlw; exact absurd hlw (by decide)
    · rw [e8] at hlw; exact absurd hlw (by decide)
    · rw [e9] at hlw; exact absurd hlw (by decide)
    · rfl

/-- The four accepted unit words, with the number of days each stands
for when added to the current date. -/
def unitWords : List (String × Int) :=
  [("day", 1), ("days", 1), ("week", 7), ("weeks", 7)]

/-- The ten number words paired with the digit strings denoting the
same quantity. -/
def wordDigitPairs : List (String × String) :=
  [("one", "1"), ("two", "2"), ("three", "3"), ("four", "4"), ("five", "5"),
   ("six", "6"), ("seven", "7"), ("eight", "8"), ("nine", "9"), ("ten", "10")]

theorem fromNow_eval (now : Int) (tok unitName : String) (f : Int)
    (hu : (unitName, f) ∈ unitWords) (hne : tok.data ≠ [])
    (hw : tok.data.all isWordChar = true)
    (hl : tok.data.all (fun c => jsToLowerChar c == c) = true) :
    (wordToNumber tok = none → jsParseIntDec tok = none →
      parseHumanDate now (tok ++ " " ++ unitName ++ " from now") =
        Except.error ("Unable to parse date: " ++ (tok ++ " " ++ unitName ++ " from now"))) ∧
    (∀ q : Nat, (wordToNumber tok = some q ∨
        (wordToNumber tok = none ∧ jsParseIntDec tok = some q)) →
      parseHumanDate now (tok ++ " " ++ unitName ++ " from now") =
        jsFormat (addDays now (f * (q : Int)))) := by
  have hwAll : ∀ c ∈ tok.data, isWordChar c = true := by
    rw [List.all_eq_true] at hw
    exact hw
  have hlAll : ∀ c ∈ tok.data, jsToLowerChar c = c := by
    rw [List.all_eq_true] at hl
    intro c hc
    exact eq_of_beq (hl c hc)
  obtain ⟨a, t, hat⟩ : ∃ a t, tok.data = a :: t := by
    cases htd : tok.data with
    | nil => exact absurd htd hne
    | cons a t => exact ⟨a, t, rfl⟩
  fin_cases hu
  · have hdata : (tok ++ " " ++ "day" ++ " from now").data = tok.data ++ (' ' :: "day from now".data) := by
      simp only [String.data_append, List.append_assoc]
      rfl
    have hmid : tok.data ++ (' ' :: "day from now".data)
        = a :: ((t ++ (' ' :: "day from no".data)) ++ ['w']) := by
      rw [hat]
      simp only [List.cons_append, List.append_assoc]
      rfl
    have hha : isJsWhitespace a = false :=
      wordChar_not_ws (hwAll a (by rw [hat]; exact List.mem_cons_self a t))
    have htrim : jsTrim (tok ++ " " ++ "day" ++ " from now") = (tok ++ " " ++ "day" ++ " from now") :=
      @jsTrim_eq_self _ a 'w' (t ++ (' ' :: "day from no".data))
        (by rw [hdata, hmid]) hha (by decide)
    have hlow : jsToLower (tok ++ " " ++ "day" ++ " from now") = (tok ++ " " ++ "day" ++ " from now") := by
      apply jsToLower_eq_self
      intro c hc
      rw [hdata] at hc
      rcases List.mem_append.mp hc with h1 | h2
      · exact hlAll c h1
      · exact (by decide : ∀ c ∈ (' ' :: "day from now".data), jsToLowerChar c = c) c h2
    have hlen : (tok ++ " " ++ "day" ++ " from now").data.length = tok.data.length + 13 := by
      rw [hdata, List.length_append]
      rfl
    have hsne : (tok ++ " " ++ "day" ++ " from now") ≠ "" := str_ne_empty (by rw [hdata, hat]; simp)
    have hiso : isoDateMatch (tok ++ " " ++ "day" ++ " from now") = none :=
      isoDateMatch_eq_none_of_length (by rw [hlen]; omega)
    have hk1 : (tok ++ " " ++ "day" ++ " from now") ≠ "today" :=
      str_ne_of_length_ne (by rw [hlen]; show tok.data.length + 13 ≠ 5; omega)
    have hk2 : (tok ++ " " ++ "day" ++ " from now") ≠ "tomorrow" :=
      str_ne_of_length_ne (by rw [hlen]; show tok.data.length + 13 ≠ 8; omega)
    have hk3 : (tok ++ " " ++ "day" ++ " from now") ≠ "yesterday" :=
      str_ne_of_length_ne (by rw [hlen]; show tok.data.length + 13 ≠ 9; omega)
    have hk4 : (tok ++ " " ++ "day" ++ " from now") ≠ "next week" :=
      str_ne_of_length_ne (by rw [hlen]; show tok.data.length + 13 ≠ 9; omega)
    have hlastw : (tok ++ " " ++ "day" ++ " from now").data.getLast? = some 'w' := by
      rw [hdata, hmid]
      exact List.getLast?_concat (a :: (t ++ (' ' :: "day from no".data)))
    have hfm : fromNowMatch (tok ++ " " ++ "day" ++ " from now") = some (tok, "day") := by
      simp only [fromNowMatch, hdata]
      rw [(takeWhile_append_cons hwAll (by decide)).1,
        (takeWhile_append_cons hwAll (by decide)).2]
      rw [if_pos hne]
      rw [show fromNowTail (' ' :: "day from now".data) = some "day" from rfl]
    have hparse : parseHumanDate now (tok ++ " " ++ "day" ++ " from now") = parseTail now (tok ++ " " ++ "day" ++ " from now") (tok ++ " " ++ "day" ++ " from now") := by
      unfold parseHumanDate
      rw [htrim, hlow]
      unfold parseNormalized
      rw [if_neg hsne]
      simp only [hiso]
      rw [if_neg hk1, if_neg hk2, if_neg hk3, if_neg hk4]
      cases hnd : nextDayMatch (tok ++ " " ++ "day" ++ " from now") with
      | none => rfl
      | some w =>
        have hd := nextDay_none_of_ends_w hlastw w hnd
        simp only [hd]
    refine ⟨?_, ?_⟩
    · intro hwn hpn
      rw [hparse]
      simp only [parseTail, hfm, hwn, hpn]
    · intro q hq
      rw [hparse]
      rcases hq with hq | ⟨hwn, hpq⟩
      · simp only [parseTail, hfm, hq]
        rw [show jsStartsWith "day" "week" = false from rfl]
        simp only [Bool.false_eq_true, if_false]
        rw [show ((1 : Int) * (q : Int)) = (q : Int) from one_mul _]
      · simp only [parseTail, hfm, hwn, hpq]
        rw [show jsStartsWith "day" "week" = false from rfl]
        simp only [Bool.false_eq_true, if_false]
        rw [show ((1 : Int) * (q : Int)) = (q : Int) from one_mul _]
  · have hdata : (tok ++ " " ++ "days" ++ " from now").data = tok.data ++ (' ' :: "days from now".data) := by
      simp only [String.data_append, List.append_assoc]
      rfl
    have hmid : tok.data ++ (' ' :: "days from now".data)
        = a :: ((t ++ (' ' :: "days from no".data)) ++ ['w']) := by
      rw [hat]
      simp only [List.cons_append, List.append_assoc]
      rfl
    have hha : isJsWhitespace a = false :=
      wordChar_not_ws (hwAll a (by rw [hat]; exact List.mem_cons_self a t))
    have htrim : jsTrim (tok ++ " " ++ "days" ++ " from now") = (tok ++ " " ++ "days" ++ " from now") :=
      @jsTrim_eq_self _ a 'w' (t ++ (' ' :: "days from no".data))
        (by rw [hdata, hmid]) hha (by decide)
    have hlow : jsToLower (tok ++ " " ++ "days" ++ " from now") = (tok ++ " " ++ "days" ++ " from now") := by
      apply jsToLower_eq_self
      intro c hc
      rw [hdata] at hc
      rcases List.mem_append.mp hc with h1 | h2
      · exact hlAll c h1
      · exact (by decide : ∀ c ∈ (' ' :: "days from now".data), jsToLowerChar c = c) c h2
    have hlen : (tok ++ " " ++ "days" ++ " from now").data.length = tok.data.length + 14 := by
      rw [hdata, List.length_append]
      rfl
    have hsne : (tok ++ " " ++ "days" ++ " from now") ≠ "" := str_ne_empty (by rw [hdata, hat]; simp)
    have hiso : isoDateMatch (tok ++ " " ++ "days" ++ " from now") = none :=
      isoDateMatch_eq_none_of_length (by rw [hlen]; omega)
    have hk1 : (tok ++ " " ++ "days" ++ " from now") ≠ "today" :=
      str_ne_of_length_ne (by rw [hlen]; show tok.data.length + 14 ≠ 5; omega)
    have hk2 : (tok ++ " " ++ "days" ++ " from now") ≠ "tomorrow" :=
      str_ne_of_length_ne (by rw [hlen]; show tok.data.length + 14 ≠ 8; omega)
    have hk3 : (tok ++ " " ++ "days" ++ " from now") ≠ "yesterday" :=
      str_ne_of_length_ne (by rw [hlen]; show tok.data.length + 14 ≠ 9; omega)
    have hk4 : (tok ++ " " ++ "days" ++ " from now") ≠ "next week" :=
      str_ne_of_length_ne (by rw [hlen]; show tok.data.length + 14 ≠ 9; omega)
    have hlastw : (tok ++ " " ++ "days" ++ " from now").data.getLast? = some 'w' := by
      rw [hdata, hmid]
      exact List.getLast?_concat (a :: (t ++ (' ' :: "days from no".data)))
    have hfm : fromNowMatch (tok ++ " " ++ "days" ++ " from now") = some (tok, "days") := by
      simp only [fromNowMatch, hdata]
      rw [(takeWhile_append_cons hwAll (by decide)).1,
        (takeWhile_append_cons hwAll (by decide)).2]
      rw [if_pos hne]
      rw [show fromNowTail (' ' :: "days from now".data) = some "days" from rfl]
    have hparse : parseHumanDate now (tok ++ " " ++ "days" ++ " from now") = parseTail now (tok ++ " " ++ "days" ++ " from now") (tok ++ " " ++ "days" ++ " from now") := by
      unfold parseHumanDate
      rw [htrim, hlow]
      unfold parseNormalized
      rw [if_neg hsne]
      simp only [hiso]
      rw [if_neg hk1, if_neg hk2, if_neg hk3, if_neg hk4]
      cases hnd : nextDayMatch (tok ++ " " ++ "days" ++ " from now") with
      | none => rfl
      | some w =>
        have hd := nextDay_none_of_ends_w hlastw w hnd
        simp only [hd]
    refine ⟨?_, ?_⟩
    · intro hwn hpn
      rw [hparse]
      simp only [parseTail, hfm, hwn, hpn]
    · intro q hq
      rw [hparse]
      rcases hq with hq | ⟨hwn, hpq⟩
      · simp only [parseTail, hfm, hq]
        rw [show jsStartsWith "days" "week" = false from rfl]
        simp only [Bool.false_eq_true, if_false]
        rw [show ((1 : Int) * (q : Int)) = (q : Int) from one_mul _]
      · simp only [parseTail, hfm, hwn, hpq]
        rw [show jsStartsWith "days" "week" = false from rfl]
        simp only [Bool.false_eq_true, if_false]
        rw [show ((1 : Int) * (q : Int)) = (q : Int) from one_mul _]
  · have hdata : (tok ++ " " ++ "week" ++ " from now").data = tok.data ++ (' ' :: "week from now".data) := by
      simp only [String.data_append, List.append_assoc]
      rfl
    have hmid : tok.data ++ (' ' :: "week from now".data)
        = a :: ((t ++ (' ' :: "week from no".data)) ++ ['w']) := by
      rw [hat]
      simp only [List.cons_append, List.append_assoc]
      rfl
    have hha : isJsWhitespace a = false :=
      wordChar_not_ws (hwAll a (by rw [hat]; exact List.mem_cons_self a t))
    have htrim : jsTrim (tok ++ " " ++ "week" ++ " from now") = (tok ++ " " ++ "week" ++ " from now") :=
      @jsTrim_eq_self _ a 'w' (t ++ (' ' :: "week from no".data))
        (by rw [hdata, hmid]) hha (by decide)
    have hlow : jsToLower (tok ++ " " ++ "week" ++ " from now") = (tok ++ " " ++ "week" ++ " from now") := by
      apply jsToLower_eq_self
      intro c hc
      rw [hdata] at hc
      rcases List.mem_append.mp hc with h1 | h2
      · exact hlAll c h1
      · exact (by decide : ∀ c ∈ (' ' :: "week from now".data), jsToLowerChar c = c) c h2
    have hlen : (tok ++ " " ++ "week" ++ " from now").data.length = tok.data.length + 14 := by
      rw [hdata, List.length_append]
      rfl
    have hsne : (tok ++ " " ++ "week" ++ " from now") ≠ "" := str_ne_empty (by rw [hdata, hat]; simp)
    have hiso : isoDateMatch (tok ++ " " ++ "week" ++ " from now") = none :=
      isoDateMatch_eq_none_of_length (by rw [hlen]; omega)
    have hk1 : (tok ++ " " ++ "week" ++ " from now") ≠ "today" :=
      str_ne_of_length_ne (by rw [hlen]; show tok.data.length + 14 ≠ 5; omega)
    have hk2 : (tok ++ " " ++ "week" ++ " from now") ≠ "tomorrow" :=
      str_ne_of_length_ne (by rw [hlen]; show tok.data.length + 14 ≠ 8; omega)
    have hk3 : (tok ++ " " ++ "week" ++ " from now") ≠ "yesterday" :=
      str_ne_of_length_ne (by rw [hlen]; show tok.data.length + 14 ≠ 9; omega)
    have hk4 : (tok ++ " " ++ "week" ++ " from now") ≠ "next week" :=
      str_ne_of_length_ne (by rw [hlen]; show tok.data.length + 14 ≠ 9; omega)
    have hlastw : (tok ++ " " ++ "week" ++ " from now").data.getLast? = some 'w' := by
      rw [hdata, hmid]
      exact List.getLast?_concat (a :: (t ++ (' ' :: "week from no".data)))
    have hfm : fromNowMatch (tok ++ " " ++ "week" ++ " from now") = some (tok, "week") := by
      simp only [fromNowMatch, hdata]
      rw [(takeWhile_append_cons hwAll (by decide)).1,
        (takeWhile_append_cons hwAll (by decide)).2]
      rw [if_pos hne]
      rw [show fromNowTail (' ' :: "week from now".data) = some "week" from rfl]
    have hparse : parseHumanDate now (tok ++ " " ++ "week" ++ " from now") = parseTail now (tok ++ " " ++ "week" ++ " from now") (tok ++ " " ++ "week" ++ " from now") := by
      unfold parseHumanDate
      rw [htrim, hlow]
      unfold parseNormalized
      rw [if_neg hsne]
      simp only [hiso]
      rw [if_neg hk1, if_neg hk2, if_neg hk3, if_neg hk4]
      cases hnd : nextDayMatch (tok ++ " " ++ "week" ++ " from now") with
      | none => rfl
      | some w =>
        have hd := nextDay_none_of_ends_w hlastw w hnd
        simp only [hd]
    refine ⟨?_, ?_⟩
    · intro hwn hpn
      rw [hparse]
      simp only [parseTail, hfm, hwn, hpn]
    · intro q hq
      rw [hparse]
      rcases hq with hq | ⟨hwn, hpq⟩
      · simp only [parseTail, hfm, hq]
        rw [show jsStartsWith "week" "week" = true from rfl]
        simp only [if_true]
      · simp only [parseTail, hfm, hwn, hpq]
        rw [show jsStartsWith "week" "week" = true from rfl]
        simp only [if_true]
  · have hdata : (tok ++ " " ++ "weeks" ++ " from now").data = tok.data ++ (' ' :: "weeks from now".data) := by
      simp only [String.data_append, List.append_assoc]
      rfl
    have hmid : tok.data ++ (' ' :: "weeks from now".data)
        = a :: ((t ++ (' ' :: "weeks from no".data)) ++ ['w']) := by
      rw [hat]
      simp only [List.cons_append, List.append_assoc]
      rfl
    have hha : isJsWhitespace a = false :=
      wordChar_not_ws (hwAll a (by rw [hat]; exact List.mem_cons_self a t))
    have htrim : jsTrim (tok ++ " " ++ "weeks" ++ " from now") = (tok ++ " " ++ "weeks" ++ " from now") :=
      @jsTrim_eq_self _ a 'w' (t ++ (' ' :: "weeks from no".data))
        (by rw [hdata, hmid]) hha (by decide)
    have hlow : jsToLower (tok ++ " " ++ "weeks" ++ " from now") = (tok ++ " " ++ "weeks" ++ " from now") := by
      apply jsToLower_eq_self
      intro c hc
      rw [hdata] at hc
      rcases List.mem_append.mp hc with h1 | h2
      · exact hlAll c h1
      · exact (by decide : ∀ c ∈ (' ' :: "weeks from now".data), jsToLowerChar c = c) c h2
    have hlen : (tok ++ " " ++ "weeks" ++ " from now").data.length = tok.data.length + 15 := by
      rw [hdata, List.length_append]
      rfl
    have hsne : (tok ++ " " ++ "weeks" ++ " from now") ≠ "" := str_ne_empty (by rw [hdata, hat]; simp)
    have hiso : isoDateMatch (tok ++ " " ++ "weeks" ++ " from now") = none :=
      isoDateMatch_eq_none_of_length (by rw [hlen]; omega)
    have hk1 : (tok ++ " " ++ "weeks" ++ " from now") ≠ "today" :=
      str_ne_of_length_ne (by rw [hlen]; show tok.data.length + 15 ≠ 5; omega)
    have hk2 : (tok ++ " " ++ "weeks" ++ " from now") ≠ "tomorrow" :=
      str_ne_of_length_ne (by rw [hlen]; show tok.data.length + 15 ≠ 8; omega)
    have hk3 : (tok ++ " " ++ "weeks" ++ " from now") ≠ "yesterday" :=
      str_ne_of_length_ne (by rw [hlen]; show tok.data.length + 15 ≠ 9; omega)
    have hk4 : (tok ++ " " ++ "weeks" ++ " from now") ≠ "next week" :=
      str_ne_of_length_ne (by rw [hlen]; show tok.data.length + 15 ≠ 9; omega)
    have hlastw : (tok ++ " " ++ "weeks" ++ " from now").data.getLast? = some 'w' := by
      rw [hdata, hmid]
      exact List.getLast?_concat (a :: (t ++ (' ' :: "weeks from no".data)))
    have hfm : fromNowMatch (tok ++ " " ++ "weeks" ++ " from now") = some (tok, "weeks") := by
      simp only [fromNowMatch, hdata]
      rw [(takeWhile_append_cons hwAll (by decide)).1,
        (takeWhile_append_cons hwAll (by decide)).2]
      rw [if_pos hne]
      rw [show fromNowTail (' ' :: "weeks from now".data) = some "weeks" from rfl]
    have hparse : parseHumanDate now (tok ++ " " ++ "weeks" ++ " from now") = parseTail now (tok ++ " " ++ "weeks" ++ " from now") (tok ++ " " ++ "weeks" ++ " from now") := by
      unfold parseHumanDate
      rw [htrim, hlow]
      unfold parseNormalized
      rw [if_neg hsne]
      simp only [hiso]
      rw [if_neg hk1, if_neg hk2, if_neg hk3, if_neg hk4]
      cases hnd : nextDayMatch (tok ++ " " ++ "weeks" ++ " from now") with
      | none => rfl
      | some w =>
        have hd := nextDay_none_of_ends_w hlastw w hnd
        simp only [hd]
    refine ⟨?_, ?_⟩
    · intro hwn hpn
      rw [hparse]
      simp only [parseTail, hfm, hwn, hpn]
    · intro q hq
      rw [hparse]
      rcases hq with hq | ⟨hwn, hpq⟩
      · simp only [parseTail, hfm, hq]
        rw [show jsStartsWith "weeks" "week" = true from rfl]
        simp only [if_true]
      · simp only [parseTail, hfm, hwn, hpq]
        rw [show jsStartsWith "weeks" "week" = true from rfl]
        simp only [if_true]

/-- C9 counterexample: the quantity token `3x` is neither a digit string
nor one of the words one..ten, yet `3x days from now` parses
successfully (via `parseInt`, which reads the leading digit run); and a
digit-string quantity large enough to push the result past the JS
`Date` range does not succeed either — `format` throws
`RangeError('Invalid time value')`. -/
theorem fromNow_quantity_counterexample :
    (parseHumanDate (mkDate 2025 11 18) "3x days from now" = Except.ok "2025-11-21" ∧
     wordToNumber "3x" = none ∧ ("3x").data.all isDigitCh = false) ∧
    parseHumanDate 0 "100000001 days from now" = Except.error "Invalid time value" :=
  ⟨⟨rfl, rfl, rfl⟩, rfl⟩

/-- C9 (amended): an input `<tok> <day(s)|week(s)> from now` (with `tok`
a word-character token) parses successfully exactly when `tok` carries a
quantity — it is one of the words one..ten, or begins with a decimal
digit, the quantity then being the longest leading digit run read as a
decimal number — AND the current date plus that many days (weeks count
as 7 days) stays within the JS `Date` range of ±100000000 days; inside
the range the output is the shifted date, beyond it `format` throws
`RangeError('Invalid time value')`.  The word path and the digit path
agree. -/
theorem fromNow_quantity_semantics (now : Int) (tok unitName : String) (f : Int)
    (hu : (unitName, f) ∈ unitWords) (hne : tok.data ≠ [])
    (hw : tok.data.all isWordChar = true)
    (hl : tok.data.all (fun c => jsToLowerChar c == c) = true) :
    ((∃ out, parseHumanDate now (tok ++ " " ++ unitName ++ " from now") = Except.ok out) ↔
      ∃ q : Nat, (wordToNumber tok = some q ∨
          (wordToNumber tok = none ∧ jsParseIntDec tok = some q)) ∧
        -100000000 ≤ addDays now (f * (q : Int)) ∧
        addDays now (f * (q : Int)) ≤ 100000000) ∧
    (∀ q : Nat, (wordToNumber tok = some q ∨
        (wordToNumber tok = none ∧ jsParseIntDec tok = some q)) →
      (-100000000 ≤ addDays now (f * (q : Int)) →
        addDays now (f * (q : Int)) ≤ 100000000 →
        parseHumanDate now (tok ++ " " ++ unitName ++ " from now") =
          Except.ok (formatDate (addDays now (f * (q : Int))))) ∧
      (addDays now (f * (q : Int)) < -100000000 ∨
          100000000 < addDays now (f * (q : Int)) →
        parseHumanDate now (tok ++ " " ++ unitName ++ " from now") =
          Except.error "Invalid time value")) ∧
    (∀ w ds, (w, ds) ∈ wordDigitPairs →
      parseHumanDate now (w ++ " " ++ unitName ++ " from now") =
        parseHumanDate now (ds ++ " " ++ unitName ++ " from now")) ∧
    parseHumanDate (mkDate 2025 11 18) "two days from now" = Except.ok "2025-11-20" ∧
    parseHumanDate (mkDate 2025 11 18) "2 days from now" = Except.ok "2025-11-20" := by
  obtain ⟨herr, hok⟩ := fromNow_eval now tok unitName f hu hne hw hl
  refine ⟨?_, ?_, ?_, rfl, rfl⟩
  · constructor
    · rintro ⟨out, hout⟩
      cases hwn : wordToNumber tok with
      | some q =>
        refine ⟨q, Or.inl rfl, ?_⟩
        rw [hok q (Or.inl hwn)] at hout
        unfold jsFormat at hout
        split_ifs at hout with hr
        exact hr
      | none =>
        cases hpn : jsParseIntDec tok with
        | some q =>
          refine ⟨q, Or.inr ⟨rfl, rfl⟩, ?_⟩
          rw [hok q (Or.inr ⟨hwn, hpn⟩)] at hout
          unfold jsFormat at hout
          split_ifs at hout with hr
          exact hr
        | none =>
          rw [herr hwn hpn] at hout
          exact Except.noConfusion hout
    · rintro ⟨q, hq, hr1, hr2⟩
      refine ⟨formatDate (addDays now (f * (q : Int))), ?_⟩
      rw [hok q hq]
      unfold jsFormat
      rw [if_pos ⟨hr1, hr2⟩]
  · intro q hq
    refine ⟨fun hr1 hr2 => ?_, fun hr => ?_⟩
    · rw [hok q hq]
      unfold jsFormat
      rw [if_pos ⟨hr1, hr2⟩]
    · have hnr : ¬(-100000000 ≤ addDays now (f * (q : Int)) ∧
          addDays now (f * (q : Int)) ≤ 100000000) := by
        intro hc
        have hc1 : (-100000000 : Int) ≤ now + f * (q : Int) := hc.1
        have hc2 : now + f * (q : Int) ≤ (100000000 : Int) := hc.2
        rcases hr with hr | hr
        · have hr2 : now + f * (q : Int) < (-100000000 : Int) := hr
          omega
        · have hr2 : (100000000 : Int) < now + f * (q : Int) := hr
          omega
      rw [hok q hq]
      unfold jsFormat
      rw [if_neg hnr]
  · intro w ds hmem
    fin_cases hmem
    · rw [(fromNow_eval now "one" unitName f hu (by decide) (by decide) (by decide)).2
        1 (Or.inl rfl), (fromNow_eval now "1" unitName f hu (by decide) (by decide)
        (by decide)).2 1 (Or.inr ⟨rfl, rfl⟩)]
    · rw [(fromNow_eval now "two" unitName f hu (by decide) (by decide) (by decide)).2
        2 (Or.inl rfl), (fromNow_eval now "2" unitName f hu (by decide) (by decide)
        (by decide)).2 2 (Or.inr ⟨rfl, rfl⟩)]
    · rw [(fromNow_eval now "three" unitName f hu (by decide) (by decide) (by decide)).2
        3 (Or.inl rfl), (fromNow_eval now "3" unitName f hu (by decide) (by decide)
        (by decide)).2 3 (Or.inr ⟨rfl, rfl⟩)]
    · rw [(fromNow_eval now "four" unitName f hu (by decide) (by decide) (by decide)).2
        4 (Or.inl rfl), (fromNow_eval now "4" unitName f hu (by decide) (by decide)
        (by decide)).2 4 (Or.inr ⟨rfl, rfl⟩)]
    · rw [(fromNow_eval now "five" unitName f hu (by decide) (by decide) (by decide)).2
        5 (Or.inl rfl), (fromNow_eval now "5" unitName f hu (by decide) (by decide)
        (by decide)).2 5 (Or.inr ⟨rfl, rfl⟩)]
    · rw [(fromNow_eval now "six" unitName f hu (by decide) (by decide) (by decide)).2
        6 (Or.inl rfl), (fromNow_eval now "6" unitName f hu (by decide) (by decide)
        (by decide)).2 6 (Or.inr ⟨rfl, rfl⟩)]
    · rw [(fromNow_eval now "seven" unitName f hu (by decide) (by decide) (by decide)).2
        7 (Or.inl rfl), (fromNow_eval now "7" unitName f hu (by decide) (by decide)
        (by decide)).2 7 (Or.inr ⟨rfl, rfl⟩)]
    · rw [(fromNow_eval now "eight" unitName f hu (by decide) (by decide) (by decide)).2
        8 (Or.inl rfl), (fromNow_eval now "8" unitName f hu (by decide) (by decide)
        (by decide)).2 8 (Or.inr ⟨rfl, rfl⟩)]
    · rw [(fromNow_eval now "nine" unitName f hu (by decide) (by decide) (by decide)).2
        9 (Or.inl rfl), (fromNow_eval now "9" unitName f hu (by decide) (by decide)
        (by decide)).2 9 (Or.inr ⟨rfl, rfl⟩)]
    · rw [(fromNow_eval now "ten" unitName f hu (by decide) (by decide) (by decide)).2
        10 (Or.inl rfl), (fromNow_eval now "10" unitName f hu (by decide) (by decide)
        (by decide)).2 10 (Or.inr ⟨rfl, rfl⟩)]

theorem fromNow_quantity_semantics_witness :
    parseHumanDate (mkDate 2025 11 18) "two days from now" = Except.ok "2025-11-20" :=
  (fromNow_quantity_semantics (mkDate 2025 11 18) "two" "days" 1 (by decide) (by decide)
    (by decide) (by decide)).2.2.2.1

/-! ### Claim C7: ISO pass-through and idempotence -/

/-! ### C7: valid ISO dates pass through; idempotence (corrected) -/

theorem yoeGo_le (doe : Nat) : ∀ n, doeOfYoe (yoeGo doe n) ≤ doe := by
  intro n
  induction n with
  | zero => simp [yoeGo, doeOfYoe]
  | succ k ih =>
    unfold yoeGo
    split_ifs with h
    · exact h
    · exact ih

theorem yoeGo_bracket (doe : Nat) : ∀ n, ∀ j, yoeGo doe n < j → j ≤ n → doe < doeOfYoe j := by
  intro n
  induction n with
  | zero => intro j h1 h2; omega
  | succ k ih =>
    intro j h1 h2
    unfold yoeGo at h1
    split_ifs at h1 with h
    · omega
    · rcases Nat.lt_or_ge j (k + 1) with hj | hj
      · exact ih j h1 (by omega)
      · have hjk : j = k + 1 := by omega
        rw [hjk]
        omega
  
theorem yoeGo_ub (doe : Nat) : ∀ n, yoeGo doe n ≤ n := by
  intro n
  induction n with
  | zero => simp [yoeGo]
  | succ k ih =>
    unfold yoeGo
    split_ifs
    · exact Nat.le_refl _
    · omega

theorem doy_facts (doe : Nat) (hdoe : doe ≤ 146096) :
    doe - doeOfYoe (yoeOfDoe doe) ≤ 365 ∧
    (doe - doeOfYoe (yoeOfDoe doe) = 365 → leapEra (yoeOfDoe doe + 1) = true) ∧
    yoeOfDoe doe ≤ 399 ∧ doeOfYoe (yoeOfDoe doe) ≤ doe := by
  have hle := yoeGo_le doe 399
  have hub := yoeGo_ub doe 399
  have hbr := yoeGo_bracket doe 399
  unfold yoeOfDoe
  obtain ⟨y, hy⟩ : ∃ y, yoeGo doe 399 = y := ⟨_, rfl⟩
  rw [hy] at hle hub ⊢
  rcases Nat.lt_or_ge y 399 with hlt | hge
  · have hnext : doe < doeOfYoe (y + 1) := by
      have := hbr (y + 1) (by omega) (by omega)
      exact this
    refine ⟨?_, ?_, hub, hle⟩
    · unfold doeOfYoe at hle hnext ⊢
      omega
    · intro h365
      unfold leapEra
      simp only [Bool.or_eq_true, Bool.and_eq_true, beq_iff_eq, bne_iff_ne, ne_eq]
      unfold doeOfYoe at hle hnext h365
      clear hy hbr hdoe hub hlt
      omega
  · have h399 : y = 399 := by omega
    rw [h399] at hle ⊢
    refine ⟨?_, ?_, by omega, hle⟩
    · unfold doeOfYoe at hle ⊢
      omega
    · intro h365
      decide

theorem isLeapYear_era (yoe : Nat) (era : Int) :
    isLeapYear ((yoe : Int) + era * 400 + 1) = leapEra (yoe + 1) := by
  rw [Bool.eq_iff_iff]
  unfold isLeapYear leapEra
  simp only [Bool.or_eq_true, Bool.and_eq_true, beq_iff_eq, bne_iff_ne, ne_eq]
  omega

theorem monthDay_valid (doy : Nat) (y1 : Int) (hdoy : doy ≤ 365)
    (hleap : doy = 365 → isLeapYear y1 = true) :
    1 ≤ (if (5 * doy + 2) / 153 < 10 then (5 * doy + 2) / 153 + 3
      else (5 * doy + 2) / 153 - 9) ∧
    (if (5 * doy + 2) / 153 < 10 then (5 * doy + 2) / 153 + 3
      else (5 * doy + 2) / 153 - 9) ≤ 12 ∧
    1 ≤ doy + 1 - (153 * ((5 * doy + 2) / 153) + 2) / 5 ∧
    doy + 1 - (153 * ((5 * doy + 2) / 153) + 2) / 5 ≤
      daysInMonth y1 (if (5 * doy + 2) / 153 < 10 then (5 * doy + 2) / 153 + 3
        else (5 * doy + 2) / 153 - 9) := by
  obtain ⟨mp, hmp⟩ : ∃ k, (5 * doy + 2) / 153 = k := ⟨_, rfl⟩
  rw [hmp]
  have hb : mp ≤ 11 := by omega
  interval_cases mp <;> simp only [daysInMonth] <;> norm_num <;> try omega
  -- remaining: February (mp = 11)
  rcases hL : isLeapYear y1 with hf | ht
  · have h364 : doy ≤ 364 := by
      by_contra hc
      push_neg at hc
      have h365 : doy = 365 := by omega
      rw [hleap h365] at hL
      exact Bool.noConfusion hL
    norm_num
    omega
  · norm_num
    omega

theorem civilOfDoe_valid (era : Int) (doe : Nat) (hdoe : doe ≤ 146096) :
    1 ≤ (civilOfDoe era doe).2.1 ∧ (civilOfDoe era doe).2.1 ≤ 12 ∧
    1 ≤ (civilOfDoe era doe).2.2 ∧
    (civilOfDoe era doe).2.2 ≤
      daysInMonth (civilOfDoe era doe).1 (civilOfDoe era doe).2.1 := by
  obtain ⟨hdoy, hleap, hyoe, hstart⟩ := doy_facts doe hdoe
  have hleap2 : doe - doeOfYoe (yoeOfDoe doe) = 365 →
      isLeapYear (if (if (5 * (doe - doeOfYoe (yoeOfDoe doe)) + 2) / 153 < 10
          then (5 * (doe - doeOfYoe (yoeOfDoe doe)) + 2) / 153 + 3
          else (5 * (doe - doeOfYoe (yoeOfDoe doe)) + 2) / 153 - 9) ≤ 2
        then ((yoeOfDoe doe : Int) + era * 400) + 1
        else ((yoeOfDoe doe : Int) + era * 400)) = true := by
    intro h365
    have hmp : (5 * (doe - doeOfYoe (yoeOfDoe doe)) + 2) / 153 = 11 := by omega
    rw [hmp]
    norm_num
    rw [isLeapYear_era (yoeOfDoe doe) era]
    exact hleap h365
  exact monthDay_valid (doe - doeOfYoe (yoeOfDoe doe)) _ hdoy hleap2

theorem civilFromDays_valid (z : Int) :
    1 ≤ (civilFromDays z).2.1 ∧ (civilFromDays z).2.1 ≤ 12 ∧
    1 ≤ (civilFromDays z).2.2 ∧
    (civilFromDays z).2.2 ≤ daysInMonth (civilFromDays z).1 (civilFromDays z).2.1 := by
  have hdoe : ((z + 719468) % 146097).toNat ≤ 146096 := by omega
  exact civilOfDoe_valid _ _ hdoe

theorem digit_not_ws {c : Char} (h : isDigitCh c = true) : isJsWhitespace c = false := by
  unfold isDigitCh at h
  unfold isJsWhitespace
  simp at h ⊢
  omega

theorem digit_tolower {c : Char} (h : isDigitCh c = true) : jsToLowerChar c = c := by
  unfold isDigitCh at h
  simp at h
  unfold jsToLowerChar
  rw [if_neg]
  omega

theorem data_shape_10 {l : List Char} (h : l.length = 10) :
    ∃ c0 c1 c2 c3 c4 c5 c6 c7 c8 c9, l = [c0, c1, c2, c3, c4, c5, c6, c7, c8, c9] := by
  rcases l with _ | ⟨c0, _ | ⟨c1, _ | ⟨c2, _ | ⟨c3, _ | ⟨c4, _ | ⟨c5, _ | ⟨c6, _ | ⟨c7, _ | ⟨c8, _ | ⟨c9, _ | ⟨cX, t⟩⟩⟩⟩⟩⟩⟩⟩⟩⟩⟩
  all_goals simp only [List.length_cons, List.length_nil] at h
  all_goals try (exfalso; omega)
  exact ⟨c0, c1, c2, c3, c4, c5, c6, c7, c8, c9, rfl⟩

/-- A string that the ISO regex accepts as a valid calendar date is
returned unchanged by `parseHumanDate`. -/
theorem iso_pass_through (now : Int) (s : String) (y m d : Nat)
    (hm : isoDateMatch s = some (y, m, d)) (hv : isValidYmd y m d = true) :
    parseHumanDate now s = Except.ok s := by
  have hm0 := hm
  simp only [isoDateMatch] at hm
  split_ifs at hm with hcond
  · obtain ⟨h10, h4, hd4, h56, hd7, h89⟩ := hcond
    obtain ⟨c0, c1, c2, c3, c4, c5, c6, c7, c8, c9, hL⟩ := data_shape_10 h10
    rw [hL] at h4 h56 h89 hd4 hd7
    simp at h4 h56 h89
    obtain ⟨hc0, hc1, hc2, hc3⟩ := h4
    obtain ⟨hc5, hc6⟩ := h56
    obtain ⟨hc8, hc9⟩ := h89
    have hc4 : c4 = '-' := hd4
    have hc7 : c7 = '-' := hd7
    have htrim : jsTrim s = s :=
      @jsTrim_eq_self _ c0 c9 [c1, c2, c3, c4, c5, c6, c7, c8] (by rw [hL]; rfl)
        (digit_not_ws hc0) (digit_not_ws hc9)
    have hlow : jsToLower s = s := by
      apply jsToLower_eq_self
      intro c hc
      rw [hL] at hc
      simp at hc
      rcases hc with rfl | rfl | rfl | rfl | rfl | rfl | rfl | rfl | rfl | rfl
      · exact digit_tolower hc0
      · exact digit_tolower hc1
      · exact digit_tolower hc2
      · exact digit_tolower hc3
      · rw [hc4]; decide
      · exact digit_tolower hc5
      · exact digit_tolower hc6
      · rw [hc7]; decide
      · exact digit_tolower hc8
      · exact digit_tolower hc9
    have hne : s ≠ "" := str_ne_empty (by rw [hL]; simp)
    unfold parseHumanDate
    rw [htrim, hlow]
    unfold parseNormalized
    rw [if_neg hne]
    simp only [hm0, hv, if_true]

theorem daysInMonth_le (y : Int) (m : Nat) : daysInMonth y m ≤ 31 := by
  rcases m with _|_|_|_|_|_|_|_|_|_|_|_|_|m
  case succ =>
    have h1 : m + 13 ≠ 1 := by omega
    have h2 : m + 13 ≠ 2 := by omega
    have h3 : m + 13 ≠ 3 := by omega
    have h4 : m + 13 ≠ 4 := by omega
    have h5 : m + 13 ≠ 5 := by omega
    have h6 : m + 13 ≠ 6 := by omega
    have h7 : m + 13 ≠ 7 := by omega
    have h8 : m + 13 ≠ 8 := by omega
    have h9 : m + 13 ≠ 9 := by omega
    have h10 : m + 13 ≠ 10 := by omega
    have h11 : m + 13 ≠ 11 := by omega
    have h12 : m + 13 ≠ 12 := by omega
    simp only [daysInMonth, h1, h2, h3, h4, h5, h6, h7, h8, h9, h10, h11, h12, if_false]
    omega
  all_goals simp only [daysInMonth] <;> norm_num
  rcases isLeapYear y <;> simp

theorem digitChar_isDigit (n : Nat) : isDigitCh (digitChar n) = true := by
  unfold digitChar
  split_ifs <;> decide

theorem charToDigit_digitChar {k : Nat} (h : k ≤ 9) : charToDigit (digitChar k) = k := by
  interval_cases k <;> decide

theorem digitsToNat_four {n : Nat} (h : n < 10000) :
    digitsToNat [digitChar (n / 1000), digitChar (n / 100 % 10), digitChar (n / 10 % 10),
      digitChar (n % 10)] = n := by
  unfold digitsToNat
  simp only [List.foldl_cons, List.foldl_nil]
  rw [charToDigit_digitChar (by omega), charToDigit_digitChar (by omega),
    charToDigit_digitChar (by omega), charToDigit_digitChar (by omega)]
  omega

theorem digitsToNat_two {n : Nat} (h : n < 100) :
    digitsToNat [digitChar (n / 10), digitChar (n % 10)] = n := by
  unfold digitsToNat
  simp only [List.foldl_cons, List.foldl_nil]
  rw [charToDigit_digitChar (by omega), charToDigit_digitChar (by omega)]
  omega

/-- For a date whose civil year is between 1 and 9999, the formatted
string reparses to the same civil triple and is a valid calendar date,
so it is a fixed point of the normalizer. -/
theorem formatDate_fixed (now2 : Int) (z : Int)
    (h1 : 1 ≤ (civilFromDays z).1) (h9999 : (civilFromDays z).1 ≤ 9999) :
    parseHumanDate now2 (formatDate z) = Except.ok (formatDate z) := by
  obtain ⟨hm1, hm12, hd1, hdlen⟩ := civilFromDays_valid z
  obtain ⟨y, m, d, hp⟩ : ∃ y m d, civilFromDays z = (y, m, d) := ⟨_, _, _, rfl⟩
  rw [hp] at hm1 hm12 hd1 hdlen h1 h9999
  simp only at hm1 hm12 hd1 hdlen h1 h9999
  have hytn : y.toNat < 10000 := by omega
  have hfd : formatDate z = String.mk
      [digitChar (y.toNat / 1000), digitChar (y.toNat / 100 % 10),
       digitChar (y.toNat / 10 % 10), digitChar (y.toNat % 10), '-',
       digitChar (m / 10), digitChar (m % 10), '-',
       digitChar (d / 10), digitChar (d % 10)] := by
    unfold formatDate yearEra
    rw [hp]
    simp only
    rw [if_pos (by omega : (0 : Int) < y)]
    unfold pad4 pad2
    rw [if_pos hytn]
    rfl
  have hiso : isoDateMatch (formatDate z) = some (y.toNat, m, d) := by
    rw [hfd]
    unfold isoDateMatch
    rw [if_pos]
    · have e1 : digitsToNat ((String.mk
          [digitChar (y.toNat / 1000), digitChar (y.toNat / 100 % 10),
           digitChar (y.toNat / 10 % 10), digitChar (y.toNat % 10), '-',
           digitChar (m / 10), digitChar (m % 10), '-',
           digitChar (d / 10), digitChar (d % 10)]).data.take 4) = y.toNat := by
        exact digitsToNat_four hytn
      have e2 : digitsToNat (((String.mk
          [digitChar (y.toNat / 1000), digitChar (y.toNat / 100 % 10),
           digitChar (y.toNat / 10 % 10), digitChar (y.toNat % 10), '-',
           digitChar (m / 10), digitChar (m % 10), '-',
           digitChar (d / 10), digitChar (d % 10)]).data.drop 5).take 2) = m := by
        exact digitsToNat_two (by omega)
      have e3 : digitsToNat (((String.mk
          [digitChar (y.toNat / 1000), digitChar (y.toNat / 100 % 10),
           digitChar (y.toNat / 10 % 10), digitChar (y.toNat % 10), '-',
           digitChar (m / 10), digitChar (m % 10), '-',
           digitChar (d / 10), digitChar (d % 10)]).data.drop 8).take 2) = d := by
        exact digitsToNat_two (by have := daysInMonth_le y m; omega)
      rw [e1, e2, e3]
    · refine ⟨rfl, ?_, rfl, ?_, rfl, ?_⟩ <;>
        simp [List.all_cons, digitChar_isDigit]
  have hvv : isValidYmd y.toNat m d = true := by
    unfold isValidYmd
    simp only [decide_eq_true_eq]
    rw [show ((y.toNat : Nat) : Int) = y from by omega]
    exact ⟨hm1, hm12, hd1, hdlen⟩
  exact iso_pass_through now2 (formatDate z) y.toNat m d hiso hvv

theorem parseTail_ok_shape (now : Int) (input normalized t : String)
    (h : parseTail now input normalized = Except.ok t) : ∃ z : Int, t = formatDate z := by
  unfold parseTail at h
  rcases hfn : fromNowMatch normalized with _ | ⟨q, u⟩ <;> simp only [hfn] at h
  · rcases ha : additionMatch normalized with _ | ⟨q, u⟩ <;> simp only [ha] at h
    · simp at h
    · rcases hp : jsParseIntDec q with _ | n <;> simp only [hp] at h
      · simp at h
      · unfold jsFormat at h
        split_ifs at h <;> exact ⟨_, (Except.ok.inj h).symm⟩
  · rcases hw : wordToNumber q with _ | n <;> simp only [hw] at h
    · rcases hp : jsParseIntDec q with _ | n <;> simp only [hp] at h
      · simp at h
      · unfold jsFormat at h
        split_ifs at h <;> exact ⟨_, (Except.ok.inj h).symm⟩
    · unfold jsFormat at h
      split_ifs at h <;> exact ⟨_, (Except.ok.inj h).symm⟩

theorem parseNormalized_ok_shape (now : Int) (input normalized t : String)
    (h : parseNormalized now input normalized = Except.ok t) :
    t = normalized ∨ ∃ z : Int, t = formatDate z := by
  unfold parseNormalized at h
  by_cases h0 : normalized = ""
  · rw [if_pos h0] at h
    simp at h
  · rw [if_neg h0] at h
    rcases hiso : isoDateMatch normalized with _ | ymd <;> simp only [hiso] at h
    · split_ifs at h
      any_goals exact Or.inr ⟨_, (Except.ok.inj h).symm⟩
      rcases hnd : nextDayMatch normalized with _ | dn <;> simp only [hnd] at h
      · exact Or.inr (parseTail_ok_shape now input normalized t h)
      · rcases hdf : dayFunctions dn with _ | (code | _ | _) <;> simp only [hdf] at h
        · exact Or.inr (parseTail_ok_shape now input normalized t h)
        · exact Or.inr ⟨_, (Except.ok.inj h).symm⟩
        · exact Or.inr ⟨_, (Except.ok.inj h).symm⟩
        · simp at h
    · split_ifs at h
      exact Or.inl (Except.ok.inj h).symm

theorem parseHumanDate_ok_shape (now : Int) (s t : String)
    (h : parseHumanDate now s = Except.ok t) :
    t = jsToLower (jsTrim s) ∨ ∃ z : Int, t = formatDate z := by
  unfold parseHumanDate at h
  exact parseNormalized_ok_shape now s (jsToLower (jsTrim s)) t h

/-- C7 counterexample: under a frozen clock of 9999-12-30 the input
"two days from now" succeeds with output "10000-01-01", but reapplying
the normalizer to that successful output fails (its 5-digit year does
not match the 4-digit ISO pattern), so the normalizer is not idempotent
on all of its successful outputs. -/
theorem iso_idempotence_counterexample :
    parseHumanDate (mkDate 9999 12 30) "two days from now" = Except.ok "10000-01-01" ∧
    parseHumanDate 0 "10000-01-01" =
      Except.error "Unable to parse date: 10000-01-01" :=
  ⟨rfl, rfl⟩

/-- C7 (amended): (1) every string matching the 4-digit `YYYY-MM-DD`
pattern that is a valid calendar date is returned unchanged by
`parseHumanDate`; (2) consequently, reapplying `parseHumanDate` to any
successful output that itself matches the pattern and is valid returns
that output; (3) every successful output is either the normalized
(trimmed, lowercased) input or a formatted date `formatDate z`; and
(4) formatted outputs whose civil year lies in 1..9999 are fixed
points of the normalizer.  Idempotence on all successful outputs is
false: outputs with year beyond 9999 have 5-digit years and fail on
reparse. -/
theorem iso_pass_through_and_idempotence :
    (∀ (now : Int) (s : String) (y m d : Nat),
        isoDateMatch s = some (y, m, d) → isValidYmd y m d = true →
        parseHumanDate now s = Except.ok s)
    ∧ (∀ (now now2 : Int) (s t : String) (y m d : Nat),
        parseHumanDate now s = Except.ok t →
        isoDateMatch t = some (y, m, d) → isValidYmd y m d = true →
        parseHumanDate now2 t = Except.ok t)
    ∧ (∀ (now : Int) (s t : String), parseHumanDate now s = Except.ok t →
        t = jsToLower (jsTrim s) ∨ ∃ z : Int, t = formatDate z)
    ∧ (∀ (now2 z : Int), 1 ≤ (civilFromDays z).1 → (civilFromDays z).1 ≤ 9999 →
        parseHumanDate now2 (formatDate z) = Except.ok (formatDate z)) := by
  refine ⟨?_, ?_, ?_, ?_⟩
  · exact fun now s y m d hm hv => iso_pass_through now s y m d hm hv
  · exact fun now now2 s t y m d _ hm hv => iso_pass_through now2 t y m d hm hv
  · exact fun now s t h => parseHumanDate_ok_shape now s t h
  · exact fun now2 z h1 h2 => formatDate_fixed now2 z h1 h2

/-- The pass-through and fixed-point parts of the C7 theorem at
concrete inputs. -/
theorem iso_pass_through_and_idempotence_witness :
    parseHumanDate 0 "2025-12-25" = Except.ok "2025-12-25" ∧
    parseHumanDate 0 (formatDate (mkDate 2025 11 18)) =
      Except.ok (formatDate (mkDate 2025 11 18)) :=
  ⟨iso_pass_through_and_idempotence.1 0 "2025-12-25" 2025 12 25 rfl rfl,
   iso_pass_through_and_idempotence.2.2.2 0 (mkDate 2025 11 18) (by decide) (by decide)⟩

end LlmTool
